import Mathlib

/-!
Shallow embedding of the WebIDL-to-MoonBit generator core
(`src/scripts/generate_moonbit.mjs`) and proofs about it.

Conventions of the embedding:
* JavaScript strings are Lean `String`s; ASCII-only identifiers are assumed
  (WebIDL identifiers are ASCII), so `Char.toLower` models
  `String.prototype.toLowerCase` on the inputs that occur.
* A JS field that may be `undefined` is an `Option`; note that in JS an empty
  array `[]` is truthy, which `some []` models faithfully.
* A thrown `TypeError` (reading a property of `undefined`) is `Option.none`
  at the function's result type; it propagates like the exception does.
-/

namespace Webapi

/-! ## Naming normalizer (`toSnakeCase`, `escapeMoonbitKeyword`) -/

/-- `str.replace(/([A-Z])/g, '_$1')`: insert an underscore before every
ASCII upper-case letter (the regex class `[A-Z]` is ASCII-only). -/
def insertUnderscores (cs : List Char) : List Char :=
  cs.flatMap fun c => if c.isUpper then ['_', c] else [c]

/-- `str.replace(/^_/, '')`: strip at most one leading underscore. -/
def stripLeadingUnderscore (cs : List Char) : List Char :=
  match cs with
  | '_' :: rest => rest
  | _ => cs

/-- `toSnakeCase` from the source: insert `_` before each capital,
lower-case everything, then drop one leading `_`. -/
def toSnakeCase (str : String) : String :=
  ⟨stripLeadingUnderscore ((insertUnderscores str.data).map Char.toLower)⟩

/-- The fixed MoonBit keyword set from `escapeMoonbitKeyword`. -/
def keywords : List String :=
  ["type", "match", "default", "pub", "priv", "fn", "let", "mut",
   "struct", "enum", "trait", "impl", "if", "else", "while", "for",
   "break", "continue", "return", "try", "catch", "throw", "async", "await"]

/-- `escapeMoonbitKeyword`: append `_` when the name collides with a keyword. -/
def escapeMoonbitKeyword (name : String) : String :=
  if name ∈ keywords then name ++ "_" else name

/-! ## IDL type descriptors

The JSON value of a `.idlType` field is either a string (base name) or an
array of further type objects (generic arguments / union members). -/

mutual
inductive IdlType where
  | mk (union : Bool) (nullable : Bool) (generic : String) (inner : InnerF)
deriving Repr

inductive InnerF where
  | name (s : String)
  | list (ts : List IdlType)
deriving Repr
end

def IdlType.union : IdlType → Bool
  | .mk u _ _ _ => u

def IdlType.nullable : IdlType → Bool
  | .mk _ n _ _ => n

def IdlType.generic : IdlType → String
  | .mk _ _ g _ => g

def IdlType.inner : IdlType → InnerF
  | .mk _ _ _ i => i

/-- The object spread `{ ...idlType, nullable: false }`. -/
def setNullableFalse : IdlType → IdlType
  | .mk u _ g i => .mk u false g i

/-- The shared base-name extraction
`Array.isArray(t.idlType) ? t.idlType[0]?.idlType || 'JsValue' : t.idlType`
(lines 99-101 and 144-146 of the source are identical).
When the first generic argument's own `.idlType` field is an array, the JS
value that flows on is that array; every later observation of it
(property lookup key, template-string splice) coerces it with
`String(array)`, which joins the element objects with `","`; the model
performs that coercion here. -/
def typeNameOf : InnerF → String
  | .name s => s
  | .list [] => "JsValue"
  | .list (t :: _) =>
    match t.inner with
    | .name s => if s = "" then "JsValue" else s
    | .list ts => String.intercalate "," (ts.map fun _ => "[object Object]")

/-- The `typeMap` literal of `mapIdlType`. -/
def typeMap : List (String × String) :=
  [("DOMString", "String"), ("USVString", "String"), ("ByteString", "String"),
   ("boolean", "Bool"), ("undefined", "Unit"), ("void", "Unit"),
   ("byte", "Int"), ("octet", "Int"), ("short", "Int"),
   ("unsigned short", "Int"), ("long", "Int"), ("unsigned long", "Int"),
   ("long long", "Int64"), ("unsigned long long", "Int64"),
   ("float", "Double"), ("double", "Double"),
   ("unrestricted float", "Double"), ("unrestricted double", "Double"),
   ("any", "JsValue"), ("object", "JsValue")]

/-- The `primitives` literal of `mapIdlTypeForFFI` (same entries). -/
def primitives : List (String × String) :=
  [("DOMString", "String"), ("USVString", "String"), ("ByteString", "String"),
   ("boolean", "Bool"), ("undefined", "Unit"), ("void", "Unit"),
   ("byte", "Int"), ("octet", "Int"), ("short", "Int"),
   ("unsigned short", "Int"), ("long", "Int"), ("unsigned long", "Int"),
   ("long long", "Int64"), ("unsigned long long", "Int64"),
   ("float", "Double"), ("double", "Double"),
   ("unrestricted float", "Double"), ("unrestricted double", "Double"),
   ("any", "JsValue"), ("object", "JsValue")]

/-- `table[typeName] || typeName` (all table values are truthy). -/
def lookupOr (table : List (String × String)) (typeName : String) : String :=
  match table.lookup typeName with
  | some v => v
  | none => typeName

mutual
/-- `mapIdlType` — the semantic mapping.  Result `none` models the JS
`TypeError` thrown by `mapIdlType(undefined)` when a `sequence` generic has
an empty argument array (`idlType.idlType[0]` is `undefined`); the
exception propagates to the caller as `none` does.

The source's nullable branch is
`return mapIdlType({ ...idlType, nullable: false })` (line 81): the
recursive call re-tests `union` — unchanged, and already known false on
this path — finds `nullable` now false, and continues with the generic
and base-name branches.  That call is unfolded one step here (into
`mapIdlTypeRest`) so the recursion is structural; the nullable-stripping
recursion of the source is thereby reflected in the definition, and the
remaining recursion (into a sequence's element type) is verbatim. -/
def mapIdlType : IdlType → Option String
  | .mk u n g i =>
    if u then some "JsValue"
    else if n then mapIdlTypeRest g i
    else mapIdlTypeRest g i

/-- Lines 86-127 of the source: the generic and base-name branches of
`mapIdlType`, reached once `union` and `nullable` are both false. -/
def mapIdlTypeRest (g : String) (i : InnerF) : Option String :=
  if g = "sequence" then
    match i with
    | .name _ => some "Array[JsValue]"
    | .list [] => none
    | .list (e :: _) => (mapIdlType e).map fun s => "Array[" ++ s ++ "]"
  else if g = "Promise" then some "JsValue"
  else some (lookupOr typeMap (typeNameOf i))
end

/-- `mapIdlTypeForFFI` — the foreign-function-safe mapping (total: it never
recurses into generic arguments, so no `undefined` dereference occurs).
The source's nullable branch
`return mapIdlTypeForFFI({ ...idlType, nullable: false })` (line 141)
re-tests `union || generic === 'sequence'` — unchanged, already known
false on this path — and then performs the primitive lookup; as above the
call is unfolded one step, which leaves no recursion at all. -/
def mapIdlTypeForFFI : IdlType → String
  | .mk u n g i =>
    if u || g = "sequence" then "JsValue"
    else if n then lookupOr primitives (typeNameOf i)
    else lookupOr primitives (typeNameOf i)

/-! ## Default-value materializer (`getDefaultValue`) -/

/-- A parsed default descriptor (`defaultValue` argument): its `.type` tag
and payload.  `other` covers any further tag (for example `dictionary` or
`sequence`), which the source's if-chain lets fall through to the
type-based defaults. -/
inductive DefaultDesc where
  | boolean (b : Bool)
  | number (s : String)
  | string (s : String)
  | null
  | other
deriving Repr, DecidableEq

/-- The base-name extraction of `getDefaultValue` (lines 55-57):
`Array.isArray(t.idlType) ? t.idlType[0]?.idlType : t.idlType` — note:
no `|| 'JsValue'` fallback here.  `none` stands for the JS `undefined`
and also for an array-valued field, both of which fail every string
comparison performed on the result in exactly the same way. -/
def gdvTypeName : InnerF → Option String
  | .name s => some s
  | .list [] => none
  | .list (t :: _) =>
    match t.inner with
    | .name s => some s
    | .list _ => none

/-- `getDefaultValue(idlType, defaultValue)`: explicit descriptor first,
then type-driven fallbacks, else the `'None'` sentinel. -/
def getDefaultValue (idlType : IdlType) (defaultValue : Option DefaultDesc) : String :=
  match defaultValue with
  | some (.boolean b) => if b then "true" else "false"
  | some (.number s) => s
  | some (.string s) => "\"" ++ s ++ "\""
  | some .null => "None"
  | _ =>
    let typeName := gdvTypeName idlType.inner
    if typeName = some "boolean" then "false"
    else if typeName = some "DOMString" ∨ typeName = some "USVString" ∨
        typeName = some "ByteString" then "\"\""
    else if typeName ∈ (["long", "short", "byte", "octet", "unsigned short",
        "unsigned long"].map some) then "0"
    else if typeName ∈ (["double", "float"].map some) then "0.0"
    else "None"

/-! ## The definition records and the merger (`mergePartialDefinitions`) -/

/-- One operation argument.  The source field `default` keeps its name;
`idlType` is accessed without a presence check by the generator, so it is
not optional here (the parser always supplies it for arguments). -/
structure Argument where
  name : String
  idlType : IdlType
  optional : Bool
  default : Option DefaultDesc
deriving Repr

/-- One interface member.  `name` is `""` when absent: for operations the
source only tests its truthiness (`""` and `undefined` are both falsy)
before any use, and attributes always carry a name in the parser's
output, so the conflation is unobservable.  `idlType` is `none` when the
field is absent. `arguments` is `none` when absent (the source reads it
as `member.arguments || []`). -/
structure Member where
  type : String
  name : String
  idlType : Option IdlType
  readonly : Bool
  arguments : Option (List Argument)
deriving Repr

/-- One top-level definition.  The source field `partial` is called
`isPartial` (`partial` is a Lean keyword); `members` and `extAttrs` are
`none` when the fields are absent — note `some []` (an empty JS array) is
truthy for the merge conditionals, which `Option` models exactly.
Extended attributes are opaque strings here: the merger only concatenates
them. -/
structure Definition where
  type : String
  name : String
  isPartial : Bool
  members : Option (List Member)
  extAttrs : Option (List String)
deriving Repr

/-- `def.type === 'interface' || def.type === 'dictionary' || def.type === 'namespace'`. -/
def isMergeKind (d : Definition) : Bool :=
  d.type = "interface" || d.type = "dictionary" || d.type = "namespace"

/-- JS `Map.get` on the insertion-ordered association list. -/
def mapGet (m : List (String × Definition)) (k : String) : Option Definition :=
  match m with
  | [] => none
  | (k', v) :: rest => if k' = k then some v else mapGet rest k

/-- JS `Map.set`: replace the value at an existing key (the key keeps its
original position) or append a new key at the end. -/
def mapSet (m : List (String × Definition)) (k : String) (v : Definition) :
    List (String × Definition) :=
  match m with
  | [] => [(k, v)]
  | (k', v') :: rest => if k' = k then (k', v) :: rest else (k', v') :: mapSet rest k v

/-- The first loop of `mergePartialDefinitions`: split the input into the
name-keyed base map, the partial list and the pass-through list, in one
left-to-right pass. -/
def scanDefs (m : List (String × Definition)) (ps os : List Definition) :
    List Definition → List (String × Definition) × List Definition × List Definition
  | [] => (m, ps, os)
  | d :: rest =>
    if isMergeKind d then
      if d.isPartial then scanDefs m (ps ++ [d]) os rest
      else scanDefs (mapSet m d.name d) ps os rest
    else scanDefs m ps (os ++ [d]) rest

/-- Merging one partial into its base: append members when both carry a
members list, and extended attributes likewise (the source mutates the
base object held in the map). -/
def mergeInto (base p : Definition) : Definition :=
  { base with
    members :=
      match base.members, p.members with
      | some bm, some pm => some (bm ++ pm)
      | bm, _ => bm
    extAttrs :=
      match base.extAttrs, p.extAttrs with
      | some be, some pe => some (be ++ pe)
      | be, _ => be }

/-- The `console.warn` line for an orphan partial. -/
def orphanWarning (p : Definition) : String :=
  "Warning: Partial " ++ p.type ++ " " ++ p.name ++ " has no base definition"

/-- The second loop: fold each collected partial into its base (in place in
the map) or emit a diagnostic when no base exists. -/
def mergeLoop (m : List (String × Definition)) :
    List Definition → List (String × Definition) × List String
  | [] => (m, [])
  | p :: rest =>
    match mapGet m p.name with
    | some base => mergeLoop (mapSet m p.name (mergeInto base p)) rest
    | none =>
      let (m', ds) := mergeLoop m rest
      (m', orphanWarning p :: ds)

/-- `mergePartialDefinitions`, returning the merged list together with the
diagnostics the source writes with `console.warn`. -/
def mergePartialDefinitions (definitions : List Definition) :
    List Definition × List String :=
  let (m, ps, os) := scanDefs [] [] [] definitions
  let (m', diags) := mergeLoop m ps
  (m'.map (·.2) ++ os, diags)

/-! ## Interface generator (`generateInterface`)

The generator is modelled line-list first (`lines.push` builds an array that
is joined with `"\n"` at the end).  The result is `none` when the JS体
would throw (a `TypeError` from `mapIdlType` on a malformed sequence, or
from `def.members.filter` when `members` is absent); the exception
propagates out of `generateInterface` to the per-definition handler. -/

/-- `member.idlType ? mapIdlType(member.idlType) : dflt`. -/
def semTypeOr (o : Option IdlType) (dflt : String) : Option String :=
  match o with
  | some t => mapIdlType t
  | none => some dflt

/-- `member.idlType ? mapIdlTypeForFFI(member.idlType) : dflt`. -/
def ffiTypeOr (o : Option IdlType) (dflt : String) : String :=
  match o with
  | some t => mapIdlTypeForFFI t
  | none => dflt

/-- Signature-list entries for the trait declaration: one
`name? : Type` string per operation argument. -/
def argSigParams : List Argument → Option (List String)
  | [] => some []
  | a :: rest => do
    let paramName := escapeMoonbitKeyword (toSnakeCase a.name)
    let paramType ← mapIdlType a.idlType
    let optMarker := if a.optional then "?" else ""
    let others ← argSigParams rest
    pure ((paramName ++ optMarker ++ " : " ++ paramType) :: others)

/-- The trait-body lines the first member loop pushes. -/
def traitSigLines (m : Member) : Option (List String) :=
  if m.type = "attribute" then do
    let attrName := escapeMoonbitKeyword (toSnakeCase m.name)
    let returnType ← semTypeOr m.idlType "JsValue"
    pure (["  " ++ attrName ++ "(self : Self) -> " ++ returnType ++ " = _"] ++
      (if !m.readonly then
        ["  set_" ++ attrName ++ "(self : Self, value : " ++ returnType ++ ") -> Unit = _"]
      else []))
  else if m.type = "operation" ∧ m.name ≠ "" then do
    let methodName := escapeMoonbitKeyword (toSnakeCase m.name)
    let returnType ← semTypeOr m.idlType "Unit"
    let params ← argSigParams (m.arguments.getD [])
    pure ["  " ++ methodName ++ "(" ++
      String.intercalate ", " ("self : Self" :: params) ++ ") -> " ++ returnType ++ " = _"]
  else some []

/-- The operation loop over arguments: FFI parameter entries (after
`obj : JsValue`) and call-site arguments (after `self.to_js()`).  Note the
FFI parameter type comes from `mapIdlType`, the semantic mapping — this is
what the source does at line 344. -/
def ffiCallParts : List Argument → Option (List String × List String)
  | [] => some ([], [])
  | a :: rest => do
    let paramName := escapeMoonbitKeyword (toSnakeCase a.name)
    let paramType ← mapIdlType a.idlType
    let callArg :=
      if a.optional then paramName ++ ".or(" ++ getDefaultValue a.idlType a.default ++ ")"
      else paramName
    let (fps, cas) ← ffiCallParts rest
    pure ((paramName ++ " : " ++ paramType) :: fps, callArg :: cas)

/-- The FFI-helper and trait-implementation lines the second member loop
pushes. -/
def memberImplLines (traitName interfaceName : String) (m : Member) : Option (List String) :=
  if m.type = "attribute" then do
    let attrName := escapeMoonbitKeyword (toSnakeCase m.name)
    let returnType ← semTypeOr m.idlType "JsValue"
    let ffiReturnType := ffiTypeOr m.idlType "JsValue"
    let ffiName := attrName ++ "_ffi"
    let ffiModule := "webapi_" ++ interfaceName
    let getterLines :=
      ["fn " ++ ffiName ++ "(obj : JsValue) -> " ++ ffiReturnType ++ " = \"" ++
        ffiModule ++ "\" \"" ++ m.name ++ "\"", "",
       "impl " ++ traitName ++ " with " ++ attrName ++ "(self : Self) -> " ++
        returnType ++ " \x7b"] ++
      (if ffiReturnType ≠ returnType then
        ["  " ++ ffiName ++ "(self.to_js()) |> " ++ returnType ++ "::from_js"]
      else
        ["  " ++ ffiName ++ "(self.to_js())"]) ++
      ["\x7d", ""]
    if !m.readonly then
      let setterFfiName := "set_" ++ attrName ++ "_ffi"
      let ffiParamType := ffiTypeOr m.idlType "JsValue"
      pure (getterLines ++
        ["fn " ++ setterFfiName ++ "(obj : JsValue, value : " ++ ffiParamType ++
          ") -> Unit = \"" ++ ffiModule ++ "\" \"set_" ++ m.name ++ "\"", "",
         "impl " ++ traitName ++ " with set_" ++ attrName ++ "(self : Self, value : " ++
          returnType ++ ") -> Unit \x7b"] ++
        (if ffiParamType ≠ returnType then
          ["  " ++ setterFfiName ++ "(self.to_js(), value.to_js())"]
        else
          ["  " ++ setterFfiName ++ "(self.to_js(), value)"]) ++
        ["\x7d", ""])
    else pure getterLines
  else if m.type = "operation" ∧ m.name ≠ "" then do
    let methodName := escapeMoonbitKeyword (toSnakeCase m.name)
    let returnType ← semTypeOr m.idlType "Unit"
    let ffiName := methodName ++ "_ffi"
    let ffiModule := "webapi_" ++ interfaceName
    let fc ← ffiCallParts (m.arguments.getD [])
    let implPs ← argSigParams (m.arguments.getD [])
    pure (["fn " ++ ffiName ++ "(" ++
        String.intercalate ", " ("obj : JsValue" :: fc.1) ++ ") -> " ++ returnType ++
        " = \"" ++ ffiModule ++ "\" \"" ++ m.name ++ "\"", "",
      "impl " ++ traitName ++ " with " ++ methodName ++ "(" ++
        String.intercalate ", " ("self : Self" :: implPs) ++ ") -> " ++ returnType ++ " \x7b",
      "  " ++ ffiName ++ "(" ++ String.intercalate ", " ("self.to_js()" :: fc.2) ++ ")",
      "\x7d", ""])
  else some []

/-- Concatenate the per-member lines in order, stopping at the first
thrown exception as the JS loop does. -/
def memberLoop (f : Member → Option (List String)) : List Member → Option (List String)
  | [] => some []
  | m :: rest => do
    let ls ← f m
    let rs ← memberLoop f rest
    pure (ls ++ rs)

/-- `generateInterface`, as the list of lines it joins. -/
def generateInterfaceLines (d : Definition) : Option (List String) := do
  let interfaceName := d.name
  let traitName := "T" ++ interfaceName
  let members ← d.members
  let methods := members.filter fun m => m.type ≠ "constructor"
  let sigs ← memberLoop traitSigLines methods
  let impls ← memberLoop (memberImplLines traitName interfaceName) methods
  pure (["///| " ++ interfaceName ++ " interface", "",
      "#external", "pub type " ++ interfaceName, "",
      "pub impl TJsValue for " ++ interfaceName ++ " with to_js(self : " ++
        interfaceName ++ ") -> JsValue = \"%identity\"", "",
      "pub trait " ++ traitName ++ ": TJsValue \x7b"] ++
    sigs ++
    ["\x7d", "",
     "pub impl " ++ traitName ++ " for " ++ interfaceName, ""] ++
    impls)

/-- `generateInterface` proper: `lines.join('\n')`. -/
def generateInterface (d : Definition) : Option String :=
  (generateInterfaceLines d).map (String.intercalate "\n")

/-! ## Concrete values used by several claims -/

/-- The IDL type `boolean`. -/
def boolT : IdlType := .mk false false "" (.name "boolean")

/-- The IDL type `sequence<long>`. -/
def seqLong : IdlType := .mk false false "sequence" (.list [.mk false false "" (.name "long")])

/-- The IDL type `Promise<boolean>`. -/
def promiseBool : IdlType := .mk false false "Promise" (.list [.mk false false "" (.name "boolean")])

/-- The IDL type `long long`. -/
def longlongT : IdlType := .mk false false "" (.name "long long")

/-! ## Claims -/

/-- C9 (confirmed): `toSnakeCase` inserts a separator before every
upper-case letter, lower-cases the result and strips one leading
separator; concretely `addEventListener ↦ add_event_listener`,
`fooBarBaz ↦ foo_bar_baz`, and `URL ↦ u_r_l` (consecutive capitals are
not merged). -/
theorem toSnakeCase_examples :
    toSnakeCase "addEventListener" = "add_event_listener" ∧
    toSnakeCase "fooBarBaz" = "foo_bar_baz" ∧
    toSnakeCase "URL" = "u_r_l" := by
  refine ⟨by decide, by decide, by decide⟩

/-- No MoonBit keyword ends in `_`, so appending the escape marker never
lands back in the keyword set. -/
theorem append_underscore_not_keyword (x : String) : x ++ "_" ∉ keywords := by
  intro h
  have hlast : (x ++ "_").data.getLast? = some '_' := by
    show (x.data ++ '_' :: List.nil).getLast? = some '_'
    exact List.getLast?_concat _
  simp only [keywords, List.mem_cons, List.not_mem_nil, or_false] at h
  rcases h with h | h | h | h | h | h | h | h | h | h | h | h |
    h | h | h | h | h | h | h | h | h | h | h | h <;>
    rw [h] at hlast <;> exact absurd hlast (by decide)

/-- C10 (confirmed): reserved-word escaping is idempotent — the appended
marker `_` yields a name outside the fixed keyword set, because no keyword
ends with `_`. -/
theorem escapeMoonbitKeyword_idempotent (x : String) :
    escapeMoonbitKeyword (escapeMoonbitKeyword x) = escapeMoonbitKeyword x := by
  unfold escapeMoonbitKeyword
  by_cases h : x ∈ keywords
  · simp [h, append_underscore_not_keyword x]
  · simp [h]

/-- C7 (confirmed): both `mapIdlType` and `mapIdlTypeForFFI` are invariant
under stripping the `nullable` flag — each strips nullability and recurses
on the inner shape. -/
theorem mapIdlType_strips_nullable (t : IdlType) :
    mapIdlType t = mapIdlType (setNullableFalse t) ∧
    mapIdlTypeForFFI t = mapIdlTypeForFFI (setNullableFalse t) := by
  obtain ⟨u, n, g, i⟩ := t
  cases n <;> simp [setNullableFalse, mapIdlType, mapIdlTypeForFFI]

/-- C3 (corrected), counterexample: the foreign mapping does not return the
dynamic-value placeholder for a promise — `mapIdlTypeForFFI(Promise<boolean>)`
is `Bool`, not `JsValue` (the FFI mapper has no Promise branch and falls
through to the base-name extraction, which reads the promise's first type
argument). -/
theorem mapForeign_promise_counterexample :
    mapIdlTypeForFFI promiseBool = "Bool" ∧ ("Bool" : String) ≠ "JsValue" := by
  decide

/-- C3 (amended): `mapIdlType` (semantic mode) returns the dynamic-value
placeholder `JsValue` for every promise-generic type; `mapIdlTypeForFFI`
(foreign mode) does not special-case promises — it maps the promise's
first type-argument base name through the primitive table, for example
`Promise<boolean> ↦ Bool`. -/
theorem promise_mapping :
    (∀ t : IdlType, t.generic = "Promise" → mapIdlType t = some "JsValue") ∧
    mapIdlTypeForFFI promiseBool = "Bool" := by
  constructor
  · intro t hg
    obtain ⟨u, n, g, i⟩ := t
    simp only [IdlType.generic] at hg
    subst hg
    cases u <;> cases n <;>
      first
        | rfl
        | (rw [mapIdlType.eq_def]
           simp
           rw [mapIdlTypeRest.eq_def]
           simp)
  · decide

/-- C3 witness: the amended claim at `Promise<boolean>`. -/
theorem promise_mapping_witness :
    mapIdlType promiseBool = some "JsValue" ∧ mapIdlTypeForFFI promiseBool = "Bool" :=
  ⟨promise_mapping.1 promiseBool rfl, promise_mapping.2⟩

/-- C6 (corrected), counterexample: with no explicit default, the
64-bit integer type `long long` materializes as the `'None'` sentinel,
not as `'0'` — the 64-bit variants are missing from the integer table in
`getDefaultValue`. -/
theorem default_longlong_counterexample :
    getDefaultValue longlongT none = "None" ∧ ("None" : String) ≠ "0" := by
  constructor
  · decide
  · decide

/-- C6 (amended): with no explicit default descriptor, the type-driven
defaults are: the 8/16/32-bit integer variants (`byte`, `octet`, `short`,
`unsigned short`, `long`, `unsigned long`) yield `'0'`; `boolean` yields
`'false'`; the string-like types yield the empty-string literal; but the
64-bit variants `long long` and `unsigned long long` fall through to the
`'None'` sentinel. -/
theorem default_value_by_type (u n : Bool) (g : String) :
    (∀ nm ∈ (["long", "short", "byte", "octet", "unsigned short",
        "unsigned long"] : List String),
      getDefaultValue (.mk u n g (.name nm)) none = "0") ∧
    getDefaultValue (.mk u n g (.name "boolean")) none = "false" ∧
    (∀ nm ∈ (["DOMString", "USVString", "ByteString"] : List String),
      getDefaultValue (.mk u n g (.name nm)) none = "\"\"") ∧
    getDefaultValue (.mk u n g (.name "long long")) none = "None" ∧
    getDefaultValue (.mk u n g (.name "unsigned long long")) none = "None" := by
  refine ⟨?_, ?_, ?_, ?_, ?_⟩
  · intro nm hnm
    fin_cases hnm <;> simp [getDefaultValue, gdvTypeName, IdlType.inner]
  · simp [getDefaultValue, gdvTypeName, IdlType.inner]
  · intro nm hnm
    fin_cases hnm <;> simp [getDefaultValue, gdvTypeName, IdlType.inner]
  · simp [getDefaultValue, gdvTypeName, IdlType.inner]
  · simp [getDefaultValue, gdvTypeName, IdlType.inner]

/-- C6 witness: the amended claim at concrete types. -/
theorem default_value_by_type_witness :
    getDefaultValue (.mk false false "" (.name "long")) none = "0" ∧
    getDefaultValue (.mk false false "" (.name "boolean")) none = "false" ∧
    getDefaultValue (.mk false false "" (.name "long long")) none = "None" :=
  ⟨(default_value_by_type false false "").1 "long" (by decide),
   (default_value_by_type false false "").2.1,
   (default_value_by_type false false "").2.2.2.1⟩

/-! ## Merge claims -/

/-- A non-partial interface `Foo` whose single member is named `a`. -/
def fooA : Definition :=
  ⟨"interface", "Foo", false, some [⟨"attribute", "a", none, false, none⟩], none⟩

/-- A second non-partial interface `Foo` whose single member is named `b`. -/
def fooB : Definition :=
  ⟨"interface", "Foo", false, some [⟨"attribute", "b", none, false, none⟩], none⟩

/-- C1 (corrected), counterexample: with two non-partial interfaces both
named `Foo`, the merge output retains the *later* one — `Map.set`
overwrites the stored value, so the first sighting is lost, not kept. -/
theorem merge_duplicate_counterexample :
    (mergePartialDefinitions [fooA, fooB]).1 = [fooB] ∧
    (mergePartialDefinitions [fooA, fooB]).1 ≠ [fooA] := by
  refine ⟨rfl, fun h => ?_⟩
  have h3 : ([fooB] : List Definition) = [fooA] := h
  have h4 := congrArg (fun l => l.map fun d => (d.members.getD []).map Member.name) h3
  exact absurd h4 (by decide)

/-- C1 (amended): for two non-partial Interface/Dictionary/Namespace
definitions with the same name, the name-to-base mapping stores the
*last* sighting (at the first sighting's position): the later duplicate
replaces the earlier definition, which is never retained, and no
diagnostic is produced. -/
theorem merge_duplicate_last_wins (d1 d2 : Definition)
    (h1 : isMergeKind d1 = true) (h2 : isMergeKind d2 = true)
    (h3 : d1.isPartial = false) (h4 : d2.isPartial = false)
    (h5 : d1.name = d2.name) :
    mergePartialDefinitions [d1, d2] = ([d2], []) := by
  simp [mergePartialDefinitions, scanDefs, h1, h2, h3, h4, mapSet, h5, mergeLoop]

/-- C1 witness: the amended claim at the two concrete `Foo` interfaces. -/
theorem merge_duplicate_last_wins_witness :
    mergePartialDefinitions [fooA, fooB] = ([fooB], []) :=
  merge_duplicate_last_wins fooA fooB (by decide) (by decide) (by decide) (by decide) rfl

/-- C4 (confirmed): a non-partial base `Foo{members:[a]}` and a partial
`Foo{members:[b]}` merge — in either relative order — into exactly one
`Foo` with members `[a, b]`, with no partial `Foo` and no diagnostic. -/
theorem mergePartial_merges (ty nm : String) (a b : Member)
    (hty : ty = "interface" ∨ ty = "dictionary" ∨ ty = "namespace") :
    mergePartialDefinitions [⟨ty, nm, false, some [a], none⟩, ⟨ty, nm, true, some [b], none⟩] =
      ([⟨ty, nm, false, some [a, b], none⟩], []) ∧
    mergePartialDefinitions [⟨ty, nm, true, some [b], none⟩, ⟨ty, nm, false, some [a], none⟩] =
      ([⟨ty, nm, false, some [a, b], none⟩], []) := by
  rcases hty with rfl | rfl | rfl <;>
    refine ⟨?_, ?_⟩ <;>
    simp [mergePartialDefinitions, scanDefs, isMergeKind, mapSet, mapGet, mergeLoop, mergeInto]

/-- C4 witness: the merge scenario at a concrete interface and members. -/
theorem mergePartial_merges_witness :
    mergePartialDefinitions
        [⟨"interface", "Foo", false, some [⟨"attribute", "a", none, false, none⟩], none⟩,
         ⟨"interface", "Foo", true, some [⟨"attribute", "b", none, false, none⟩], none⟩] =
      ([⟨"interface", "Foo", false,
          some [⟨"attribute", "a", none, false, none⟩, ⟨"attribute", "b", none, false, none⟩],
          none⟩], []) :=
  (mergePartial_merges "interface" "Foo" _ _ (Or.inl rfl)).1

/-- C8 (confirmed): an orphan partial `Bar` (no non-partial base named
`Bar`) is dropped from the output, exactly one diagnostic naming `Bar` is
emitted, and the run continues (the merge returns normally). -/
theorem merge_orphan_partial (ms : Option (List Member)) (ea : Option (List String)) :
    mergePartialDefinitions [⟨"interface", "Bar", true, ms, ea⟩] =
      ([], ["Warning: Partial interface Bar has no base definition"]) := rfl

/-- An `enum` definition (not one of the three merged kinds). -/
def enumE : Definition := ⟨"enum", "E", false, none, none⟩

/-- A non-partial interface definition `I`. -/
def ifaceI : Definition := ⟨"interface", "I", false, some [], none⟩

/-- C5 (corrected), counterexample: a partial-free list is *not* always
returned unchanged — merge moves the Interface/Dictionary/Namespace
definitions in front of the others, so `[enum E, interface I]` comes back
as `[interface I, enum E]`. -/
theorem merge_reorders_counterexample :
    mergePartialDefinitions [enumE, ifaceI] = ([ifaceI, enumE], []) ∧
    (mergePartialDefinitions [enumE, ifaceI]).1 ≠ [enumE, ifaceI] := by
  refine ⟨rfl, fun h => ?_⟩
  have h3 : ([ifaceI, enumE] : List Definition) = [enumE, ifaceI] := h
  have h4 := congrArg (List.map Definition.type) h3
  exact absurd h4 (by decide)

/-- Setting a key absent from the map appends it at the end. -/
theorem mapSet_fresh (m : List (String × Definition)) (k : String) (v : Definition)
    (h : k ∉ m.map Prod.fst) : mapSet m k v = m ++ [(k, v)] := by
  induction m with
  | nil => rfl
  | cons p rest ih =>
    obtain ⟨k', v'⟩ := p
    simp only [List.map_cons, List.mem_cons, not_or] at h
    obtain ⟨h1, h2⟩ := h
    simp [mapSet, Ne.symm h1, ih h2]

/-- Scanning a partial-free list (no merge-kind definition is partial)
whose merge-kind definitions have pairwise distinct names: each
merge-kind definition appends one fresh key to the map, in encounter
order, and every other definition passes through in order. -/
theorem scanDefs_partialFree (defs : List Definition)
    (h1 : ∀ d ∈ defs, isMergeKind d = true → d.isPartial = false)
    (h2 : ((defs.filter (fun d => isMergeKind d)).map Definition.name).Nodup) :
    ∀ m ps os, (∀ d ∈ defs, isMergeKind d = true → d.name ∉ m.map Prod.fst) →
      scanDefs m ps os defs =
        (m ++ (defs.filter (fun d => isMergeKind d)).map (fun d => (d.name, d)), ps,
         os ++ defs.filter (fun d => !isMergeKind d)) := by
  induction defs with
  | nil => intro m ps os _; simp [scanDefs]
  | cons d rest ih =>
    intro m ps os hfresh
    have h1r : ∀ x ∈ rest, isMergeKind x = true → x.isPartial = false :=
      fun x hx => h1 x (by simp [hx])
    by_cases hd : isMergeKind d = true
    · have hdp : d.isPartial = false := h1 d (by simp) hd
      have hfP : (d :: rest).filter (fun d => isMergeKind d) =
          d :: rest.filter (fun d => isMergeKind d) := by
        simp [List.filter_cons, hd]
      have hfN : (d :: rest).filter (fun d => !isMergeKind d) =
          rest.filter (fun d => !isMergeKind d) := by
        simp [List.filter_cons, hd]
      rw [hfP] at h2
      simp only [List.map_cons, List.nodup_cons] at h2
      obtain ⟨hdnot, h2r⟩ := h2
      have hfresh2 : ∀ x ∈ rest, isMergeKind x = true →
          x.name ∉ (m ++ [(d.name, d)]).map Prod.fst := by
        intro x hx hxk
        simp only [List.map_append, List.map_cons, List.map_nil, List.mem_append,
          List.mem_singleton, not_or]
        refine ⟨hfresh x (by simp [hx]) hxk, ?_⟩
        intro hxd
        exact hdnot (hxd ▸ List.mem_map_of_mem Definition.name
          (List.mem_filter.mpr ⟨hx, hxk⟩))
      rw [scanDefs, if_pos hd, if_neg (by simp [hdp])]
      rw [mapSet_fresh m d.name d (hfresh d (by simp) hd)]
      rw [ih h1r h2r (m ++ [(d.name, d)]) ps os hfresh2]
      rw [hfP, hfN]
      simp
    · have hd2 : isMergeKind d = false := by
        revert hd; cases isMergeKind d <;> simp
      have hfP : (d :: rest).filter (fun d => isMergeKind d) =
          rest.filter (fun d => isMergeKind d) := by
        simp [List.filter_cons, hd2]
      have hfN : (d :: rest).filter (fun d => !isMergeKind d) =
          d :: rest.filter (fun d => !isMergeKind d) := by
        simp [List.filter_cons, hd2]
      rw [hfP] at h2
      have hfresh2 : ∀ x ∈ rest, isMergeKind x = true → x.name ∉ m.map Prod.fst :=
        fun x hx => hfresh x (by simp [hx])
      rw [scanDefs, if_neg (by simp [hd2])]
      rw [ih h1r h2 m ps (os ++ [d]) hfresh2]
      rw [hfP, hfN]
      simp

/-- C5 (amended): merging a partial-free list whose
Interface/Dictionary/Namespace definitions have pairwise distinct names
returns those merge-kind definitions first, in their original
(first-sighting) order, followed by the other definitions in their
original relative order, with no diagnostics — for arbitrary
interleavings; consequently the list comes back unchanged exactly when
the merge-kind definitions already precede all other-kind definitions. -/
theorem merge_nopartials (defs : List Definition)
    (h1 : ∀ d ∈ defs, isMergeKind d = true → d.isPartial = false)
    (h2 : ((defs.filter (fun d => isMergeKind d)).map Definition.name).Nodup) :
    mergePartialDefinitions defs =
      (defs.filter (fun d => isMergeKind d) ++ defs.filter (fun d => !isMergeKind d), []) ∧
    (mergePartialDefinitions defs = (defs, []) ↔
      ∃ bs os, defs = bs ++ os ∧ (∀ d ∈ bs, isMergeKind d = true) ∧
        (∀ d ∈ os, isMergeKind d = false)) := by
  have hmain : mergePartialDefinitions defs =
      (defs.filter (fun d => isMergeKind d) ++ defs.filter (fun d => !isMergeKind d), []) := by
    unfold mergePartialDefinitions
    rw [scanDefs_partialFree defs h1 h2 [] [] [] (by simp)]
    simp only [mergeLoop, List.nil_append]
    refine Prod.ext ?_ rfl
    simp only [List.map_map]
    have hcomp : ((fun x => x.2) ∘ fun d : Definition => (d.name, d)) = id := rfl
    rw [hcomp, List.map_id]
  refine ⟨hmain, ?_, ?_⟩
  · intro heq
    have hlist := congrArg Prod.fst (hmain.symm.trans heq)
    refine ⟨defs.filter (fun d => isMergeKind d), defs.filter (fun d => !isMergeKind d),
      hlist.symm, ?_, ?_⟩
    · intro x hx
      exact (List.mem_filter.mp hx).2
    · intro x hx
      have hb := (List.mem_filter.mp hx).2
      simpa using hb
  · rintro ⟨bs, os, rfl, hbs, hos⟩
    rw [hmain, List.filter_append, List.filter_append]
    have e1 : bs.filter (fun d => isMergeKind d) = bs :=
      List.filter_eq_self.mpr hbs
    have e2 : os.filter (fun d => isMergeKind d) = [] :=
      List.filter_eq_nil_iff.mpr (fun a ha => by simp [hos a ha])
    have e3 : bs.filter (fun d => !isMergeKind d) = [] :=
      List.filter_eq_nil_iff.mpr (fun a ha => by simp [hbs a ha])
    have e4 : os.filter (fun d => !isMergeKind d) = os :=
      List.filter_eq_self.mpr (fun a ha => by simp [hos a ha])
    rw [e1, e2, e3, e4]
    simp

/-- C5 witness: the ordering law applied to the interleaved partial-free
list `[enum E, interface I]`, and the unchanged-iff-sorted equivalence
applied to the sorted list `[interface I, enum E]`. -/
theorem merge_nopartials_witness :
    mergePartialDefinitions [enumE, ifaceI] = ([ifaceI, enumE], []) ∧
    mergePartialDefinitions [ifaceI, enumE] = ([ifaceI, enumE], []) :=
  ⟨(merge_nopartials [enumE, ifaceI] (by decide) (by decide)).1,
   ((merge_nopartials [ifaceI, enumE] (by decide) (by decide)).2).mpr
     ⟨[ifaceI], [enumE], rfl, by decide, by decide⟩⟩

/-! ## Foreign-declaration typing (C2) -/

/-- An interface `I` whose single member is the operation
`boolean dispatch(sequence<long> events)`. -/
def seqOpInterface : Definition :=
  ⟨"interface", "I", false,
   some [⟨"operation", "dispatch", some boolT, false, some [⟨"events", seqLong, false, none⟩]⟩],
   none⟩

/-- C2 (corrected), counterexample: the foreign declaration generated for
the operation `dispatch(sequence<long>)` types its parameter `Array[Int]`
— the semantic mapping — although the foreign-safe mapping of
`sequence<long>` is `JsValue`; the operation branch never calls
`mapIdlTypeForFFI`. -/
theorem operation_ffi_type_counterexample :
    ("fn dispatch_ffi(obj : JsValue, events : Array[Int]) -> Bool = \"webapi_I\" \"dispatch\"" ∈
      (generateInterfaceLines seqOpInterface).getD []) ∧
    mapIdlTypeForFFI seqLong = "JsValue" ∧
    mapIdlType seqLong = some "Array[Int]" ∧
    ("Array[Int]" : String) ≠ "JsValue" := by
  decide

/-- An interface with a single read-only attribute of the given type. -/
def attrInterface (iname aname : String) (t : IdlType) : Definition :=
  ⟨"interface", iname, false, some [⟨"attribute", aname, some t, true, none⟩], none⟩

/-- An interface with a single operation of return type `tr` and one
non-optional argument of type `ta`. -/
def opInterface (iname oname argname : String) (ta tr : IdlType) : Definition :=
  ⟨"interface", iname, false,
   some [⟨"operation", oname, some tr, false, some [⟨argname, ta, false, none⟩]⟩],
   none⟩

/-- C2 (amended): for attributes the paired foreign declaration uses the
foreign-safe mapping (`mapIdlTypeForFFI`) for its value type, but for
operations the foreign declaration uses the semantic mapping
(`mapIdlType`) for both the parameter types and the return type. -/
theorem ffi_declaration_types :
    (∀ (iname aname : String) (t : IdlType) (s : String), mapIdlType t = some s →
      ("fn " ++ (escapeMoonbitKeyword (toSnakeCase aname) ++ "_ffi") ++
          "(obj : JsValue) -> " ++ mapIdlTypeForFFI t ++ " = \"" ++
          ("webapi_" ++ iname) ++ "\" \"" ++ aname ++ "\"") ∈
        (generateInterfaceLines (attrInterface iname aname t)).getD []) ∧
    (∀ (iname oname argname : String) (ta tr : IdlType) (sa sr : String),
      oname ≠ "" → mapIdlType ta = some sa → mapIdlType tr = some sr →
      ("fn " ++ (escapeMoonbitKeyword (toSnakeCase oname) ++ "_ffi") ++ "(" ++
          ("obj : JsValue" ++ ", " ++
            (escapeMoonbitKeyword (toSnakeCase argname) ++ " : " ++ sa)) ++
          ") -> " ++ sr ++ " = \"" ++ ("webapi_" ++ iname) ++ "\" \"" ++ oname ++ "\"") ∈
        (generateInterfaceLines (opInterface iname oname argname ta tr)).getD []) := by
  constructor
  · intro iname aname t s h
    simp [generateInterfaceLines, attrInterface, memberLoop, memberImplLines, traitSigLines,
      semTypeOr, ffiTypeOr, h, String.intercalate, String.intercalate.go]
  · intro iname oname argname ta tr sa sr hn hta htr
    simp [generateInterfaceLines, opInterface, memberLoop, memberImplLines, traitSigLines,
      ffiCallParts, argSigParams, semTypeOr, ffiTypeOr, hn, hta, htr,
      String.intercalate, String.intercalate.go]

/-- C2 witness: the amended claim at a boolean attribute `value` and an
operation `boolean check(boolean flag)` of an interface `I`. -/
theorem ffi_declaration_types_witness :
    ("fn value_ffi(obj : JsValue) -> Bool = \"webapi_I\" \"value\"" ∈
      (generateInterfaceLines (attrInterface "I" "value" boolT)).getD []) ∧
    ("fn check_ffi(obj : JsValue, flag : Bool) -> Bool = \"webapi_I\" \"check\"" ∈
      (generateInterfaceLines (opInterface "I" "check" "flag" boolT boolT)).getD []) := by
  constructor
  · exact ffi_declaration_types.1 "I" "value" boolT "Bool" (by decide)
  · exact ffi_declaration_types.2 "I" "check" "flag" boolT boolT "Bool" "Bool"
      (by decide) (by decide) (by decide)

end Webapi
